import Mathlib

/-!
# employee_zip_to_csv: a shallow embedding of `main.go`

The program fetches a ZIP archive, decodes every entry as a JSON array of
employees, keeps the salaried employees born in a summer month, and writes one
CSV file per entry.

Conventions of the embedding.

* A Go `string` is its sequence of bytes (`GoString`); `len` is `List.length`
  and `s[i]` is the byte at position `i`.
* A run-time panic is the `Except.error` result of a function returning
  `Except Panic _`.
* An `error` value is represented by the text of its `Error()` method.
* A log entry is the text handed to `log.Printf` after formatting (the
  time stamp and the newline the standard logger adds are left out).
* Calls that leave the repository (`http.Get`, `zip.NewReader`, `time.Parse`,
  `os.WriteFile`) are read from a `World`, which lists what each call returns.
-/

namespace EmployeeZipToCsv

/-! ## Go strings -/

/-- One byte of a Go string. -/
abbrev Byte := UInt8

/-- Go `string`: an immutable sequence of bytes. -/
abbrev GoString := List Byte

/-- UTF-8 encoding of the code point `r` (the conversion `string(r)` of an
integer below the surrogate range, and the encoding of a source character). -/
def utf8Encode (r : Nat) : GoString :=
  if r < 0x80 then [UInt8.ofNat r]
  else if r < 0x800 then [UInt8.ofNat (0xC0 + r / 64), UInt8.ofNat (0x80 + r % 64)]
  else if r < 0x10000 then
    [UInt8.ofNat (0xE0 + r / 4096), UInt8.ofNat (0x80 + r / 64 % 64), UInt8.ofNat (0x80 + r % 64)]
  else
    [UInt8.ofNat (0xF0 + r / 262144), UInt8.ofNat (0x80 + r / 4096 % 64),
     UInt8.ofNat (0x80 + r / 64 % 64), UInt8.ofNat (0x80 + r % 64)]

/-- The bytes of a Go string literal (Go source text is UTF-8). -/
def str (s : String) : GoString :=
  s.data.flatMap (fun c => utf8Encode c.toNat)

/-- Conversion `string(b)` of a byte: the UTF-8 encoding of the code point whose
number is the value of the byte. -/
def stringOfByte (b : Byte) : GoString :=
  utf8Encode b.toNat

/-- The space byte, the separator of `strings.Split(_, " ")`. -/
def space : Byte := 32

/-- Function `strings.Split(s, sep)` for a one-byte separator, the only way the
program calls it: `s` is cut at every occurrence of `sep`; a string without the
separator (the empty string included) gives the one-element slice `[s]`. -/
def stringsSplit : GoString → Byte → List GoString
  | [], _ => [[]]
  | c :: rest, sep =>
    if c = sep then [] :: stringsSplit rest sep
    else
      match stringsSplit rest sep with
      | [] => [[c]]
      | seg :: segs => (c :: seg) :: segs

/-- Decimal text of a non-negative `int`, as `%v` prints it. -/
def itoa (n : Nat) : GoString :=
  (Nat.toDigits 10 n).flatMap (fun c => utf8Encode c.toNat)

/-! ## Panics and indexing -/

/-- Run-time panics the program can raise. -/
inductive Panic where
  | indexOutOfRange (index : Nat) (length : Nat)
  deriving DecidableEq, Repr

/-- Index expression `xs[i]`: panics when `i` is not below `len(xs)`. -/
def index {α : Type} (xs : List α) (i : Nat) : Except Panic α :=
  match xs[i]? with
  | some x => .ok x
  | none => .error (.indexOutOfRange i xs.length)

/-! ## Data model (`main.go`, lines 16-34) -/

/-- Go struct `Name`. -/
structure Name where
  First : GoString
  Last : GoString
  deriving DecidableEq, Repr

/-- Go struct `Employee`. -/
structure Employee where
  DOB : GoString
  Name : Name
  Roles : List GoString
  Email : GoString
  Department : GoString
  Username : GoString
  deriving DecidableEq, Repr

/-- Go struct `EmployeeClean`. -/
structure EmployeeClean where
  FullName : GoString
  Department : GoString
  Email : GoString
  deriving DecidableEq, Repr

/-- An `error` value, by the text of its `Error()` method. -/
abbrev GoError := GoString

/-! ## `time` -/

/-- What the program observes of a parsed `time.Time`: the result of `Month()`,
a number from 1 (January) to 12 (December). -/
structure Time where
  Month : Nat
  deriving DecidableEq, Repr

/-- Constant `time.June`. -/
def June : Nat := 6

/-- Constant `time.July`. -/
def July : Nat := 7

/-- Constant `time.August`. -/
def August : Nat := 8

/-- Constant `time.September`. -/
def September : Nat := 9

/-- Signature of `time.Parse(time.RFC3339, _)`: a parsed time, or an error. -/
abbrev TimeParse := GoString → Except GoError Time

/-! ## Predicates and the transformation (`main.go`, lines 102-159) -/

/-- The loop of `salariedEmployee` over the roles, returning at the first role
equal to `"salaried"`. -/
def salariedLoop : List GoString → Bool
  | [] => false
  | role :: rest => if role = str "salaried" then true else salariedLoop rest

/-- Function `salariedEmployee` (lines 133-141). -/
def salariedEmployee (employee : Employee) : Bool :=
  salariedLoop employee.Roles

/-- Slice `summerMonths` of `bornInSummer` (line 152). -/
def summerMonths : List Nat := [June, July, August, September]

/-- The loop of `bornInSummer` over `summerMonths`, returning at the first month
equal to the parsed one. -/
def summerLoop (parsedMonth : Nat) : List Nat → Bool
  | [] => false
  | month :: rest => if parsedMonth = month then true else summerLoop parsedMonth rest

/-- Function `bornInSummer` (lines 143-159): the pair `(bool, error)`, with
`none` for a nil error. -/
def bornInSummer (timeParse : TimeParse) (employee : Employee) : Bool × Option GoError :=
  match timeParse employee.DOB with
  | .error err => (false, some err)
  | .ok parsedTime => (summerLoop parsedTime.Month summerMonths, none)

/-- Function `cleanUpEmployeeData` (lines 119-131). -/
def cleanUpEmployeeData (employee : Employee) : Except Panic EmployeeClean := do
  let splitFirst := stringsSplit employee.Name.First space
  let first0 ← index splitFirst 0
  if first0.length + employee.Name.Last.length > 9 then
    let initial ← index first0 0
    pure { FullName := stringOfByte initial ++ str ". " ++ employee.Name.Last
           Department := employee.Department
           Email := employee.Email }
  else
    pure { FullName := employee.Name.First ++ str " " ++ employee.Name.Last
           Department := employee.Department
           Email := employee.Email }

/-- The text `filterEmployees` logs for an employee whose date of birth did not
parse (line 109). -/
def dobLogEntry (employee : Employee) (err : GoError) : GoString :=
  str "Error checking if employee was born in summer: " ++ employee.Username ++ str ", " ++ err

/-- The loop of `filterEmployees` (lines 104-115) from a given log and a given
`filteredEmployees`. The result is the log at the end, or at the panic, and the
slice the function returns. -/
def filterEmployeesLoop (timeParse : TimeParse) :
    List Employee → List GoString → List EmployeeClean →
      List GoString × Except Panic (List EmployeeClean)
  | [], log, filteredEmployees => (log, .ok filteredEmployees)
  | employee :: rest, log, filteredEmployees =>
    let salaried := salariedEmployee employee
    let born := bornInSummer timeParse employee
    let log1 :=
      match born.2 with
      | some err => log ++ [dobLogEntry employee err]
      | none => log
    if salaried && born.1 then
      match cleanUpEmployeeData employee with
      | .error p => (log1, .error p)
      | .ok cleanEmployee => filterEmployeesLoop timeParse rest log1 (filteredEmployees ++ [cleanEmployee])
    else
      filterEmployeesLoop timeParse rest log1 filteredEmployees

/-- Function `filterEmployees` (lines 102-117): the log entries it emits, and
the slice it returns or the panic that ends it. -/
def filterEmployees (timeParse : TimeParse) (employees : List Employee) :
    List GoString × Except Panic (List EmployeeClean) :=
  filterEmployeesLoop timeParse employees [] []

/-! ## A concrete `time.Parse(time.RFC3339, _)`

The theorems on `bornInSummer` and `filterEmployees` hold for every `TimeParse`.
Closed examples need one parser; `timeParseRFC3339` follows the fixed-width
reading the Go library tries first for this layout: `YYYY-MM-DDTHH:MM:SS`, an
optional fraction of a second, then `Z` or a `+hh:mm` / `-hh:mm` offset. Strings
the library accepts only through its general layout matcher are errors here,
and the error text stops after the layout. -/

/-- Test for an ASCII decimal digit. -/
def isDigit (b : Byte) : Bool :=
  48 ≤ b.toNat && b.toNat ≤ 57

/-- Decimal number written by `s`, when `s` is made of digits and the number
lies between `min` and `max`. -/
def parseUint (s : GoString) (min max : Nat) : Option Nat :=
  if s.all isDigit then
    let x := s.foldl (fun x c => x * 10 + (c.toNat - 48)) 0
    if min ≤ x ∧ x ≤ max then some x else none
  else none

/-- Leap years of the Gregorian calendar. -/
def isLeap (year : Nat) : Bool :=
  year % 4 = 0 && (year % 100 ≠ 0 || year % 400 = 0)

/-- Number of days of a month in a year. -/
def daysIn (month year : Nat) : Nat :=
  if month = 2 then (if isLeap year then 29 else 28)
  else if month = 4 ∨ month = 6 ∨ month = 9 ∨ month = 11 then 30
  else 31

/-- The zone at the end of an RFC 3339 time: `Z`, or a sign, two digits of
hours up to 23, a colon and two digits of minutes up to 59. -/
def zoneOk (s : GoString) : Bool :=
  if s = str "Z" then true
  else
    s.length = 6 && (s.take 1 = str "+" || s.take 1 = str "-")
      && (parseUint ((s.drop 1).take 2) 0 23).isSome
      && (s.drop 3).take 1 = str ":"
      && (parseUint ((s.drop 4).take 2) 0 59).isSome

/-- The text after the seconds, once an optional fraction (a dot and at least
one digit) is removed. -/
def dropFraction (s : GoString) : GoString :=
  match s with
  | dot :: d :: rest =>
    if dot = 46 && isDigit d then rest.dropWhile isDigit else s
  | _ => s

/-- The error `time.Parse` returns for `value`, up to the layout. -/
def parseError (value : GoString) : GoError :=
  str "parsing time \"" ++ value ++ str "\" as \"2006-01-02T15:04:05Z07:00\""

/-- A model of `time.Parse(time.RFC3339, value)`. The wall-clock month of the
result is the month written in `value`, whatever the offset. -/
def timeParseRFC3339 : TimeParse := fun value =>
  let separators :=
    (value.drop 4).take 1 = str "-" && (value.drop 7).take 1 = str "-"
      && (value.drop 10).take 1 = str "T" && (value.drop 13).take 1 = str ":"
      && (value.drop 16).take 1 = str ":"
  match parseUint (value.take 4) 0 9999, parseUint ((value.drop 5).take 2) 1 12 with
  | some year, some month =>
    if 19 ≤ value.length && separators
        && (parseUint ((value.drop 8).take 2) 1 (daysIn month year)).isSome
        && (parseUint ((value.drop 11).take 2) 0 23).isSome
        && (parseUint ((value.drop 14).take 2) 0 59).isSome
        && (parseUint ((value.drop 17).take 2) 0 59).isSome
        && zoneOk (dropFraction (value.drop 19)) then
      .ok { Month := month }
    else .error (parseError value)
  | _, _ => .error (parseError value)

/-! ## `encoding/json`: storing a JSON array into `employees`

`json.Unmarshal(decodedZip, &employees)` writes into the slice the variable
already holds (`employees` is declared once, before the loop over the archive,
line 65). The library stores element `i` of the JSON array into element `i` of
the backing array of the slice, and a JSON object sets only the struct fields
whose keys it has; the other fields keep the value the element had. An element
beyond the capacity starts from the zero value. An empty JSON array replaces
the slice by a new empty one.

The text of an entry is represented after lexing: either text on which
`Unmarshal` reports a syntax error (it then stores nothing), or an array of
objects, each key present with a value of the right JSON type or absent. -/

/-- A JSON object for `Name`: `none` for an absent key. -/
structure NameJSON where
  first : Option GoString
  last : Option GoString
  deriving DecidableEq, Repr

/-- A JSON object for `Employee`: `none` for an absent key. -/
structure EmployeeJSON where
  dob : Option GoString
  name : Option NameJSON
  roles : Option (List GoString)
  email : Option GoString
  department : Option GoString
  username : Option GoString
  deriving DecidableEq, Repr

/-- The decompressed text of an archive entry, as `json.Unmarshal` reads it. -/
inductive JSONText where
  | invalid (err : GoError)
  | array (elems : List EmployeeJSON)
  deriving DecidableEq, Repr

/-- The variable `employees`: the backing array of the slice (its length is the
capacity) and the length of the slice. -/
structure Slice where
  array : List Employee
  len : Nat
  deriving DecidableEq, Repr

/-- The elements of a slice, `employees[0:len]`. -/
def Slice.elems (s : Slice) : List Employee :=
  s.array.take s.len

/-- The nil slice, the value of `var employees []Employee`. -/
def Slice.nil : Slice := { array := [], len := 0 }

/-- The zero value of `Employee`. -/
def Employee.zero : Employee :=
  { DOB := [], Name := { First := [], Last := [] }, Roles := [], Email := [],
    Department := [], Username := [] }

/-- Storing a JSON object into a `Name`: keys present overwrite their field. -/
def storeName (old : Name) (j : NameJSON) : Name :=
  { First := j.first.getD old.First, Last := j.last.getD old.Last }

/-- Storing a JSON object into an `Employee`: keys present overwrite their
field, an absent key leaves the field as it was. -/
def storeEmployee (old : Employee) (j : EmployeeJSON) : Employee :=
  { DOB := j.dob.getD old.DOB
    Name := match j.name with
      | some n => storeName old.Name n
      | none => old.Name
    Roles := j.roles.getD old.Roles
    Email := j.email.getD old.Email
    Department := j.department.getD old.Department
    Username := j.username.getD old.Username }

/-- Storing the elements of a JSON array over a backing array: element `i` is
stored into the element already at `i`, or into a zero value past the end; the
elements of the backing array past the JSON array stay. -/
def storeArray : List Employee → List EmployeeJSON → List Employee
  | backing, [] => backing
  | [], j :: js => storeEmployee Employee.zero j :: storeArray [] js
  | old :: backing, j :: js => storeEmployee old j :: storeArray backing js

/-- Call `json.Unmarshal(decodedZip, &employees)`: the error it returns and the
value of `employees` afterwards. -/
def jsonUnmarshal (decodedZip : JSONText) (employees : Slice) : Option GoError × Slice :=
  match decodedZip with
  | .invalid err => (some err, employees)
  | .array [] => (none, Slice.nil)
  | .array (j :: js) =>
    (none, { array := storeArray employees.array (j :: js), len := (j :: js).length })

/-! ## The run (`main`, lines 40-100) -/

/-- An HTTP response: status code, status text, and what `io.ReadAll` gives
for the body. -/
structure Response where
  StatusCode : Nat
  Status : GoString
  Body : Except GoError GoString

/-- An entry `zip.File` of the archive: its name, and what `file.Open()`
followed by `io.ReadAll` gives (an error of `Open`, an error of `ReadAll`, or
the decompressed text). -/
structure ZipFile where
  Name : GoString
  Open : Except GoError (Except GoError JSONText)

/-- A call of `os.WriteFile`: file name, data, and the error returned (`none`
for nil, the file is then written). -/
structure WriteFileCall where
  name : GoString
  data : GoString
  err : Option GoError
  deriving DecidableEq, Repr

/-- What the calls leaving the repository return. -/
structure World where
  httpGet : GoString → Except GoError Response
  zipNewReader : GoString → Except GoError (List ZipFile)
  timeParse : TimeParse
  writeFile : GoString → GoString → Option GoError

/-- What a run does: the log entries, the calls of `os.WriteFile`, both in
order, and the panic that ended the run, if one did. -/
structure Run where
  log : List GoString
  writes : List WriteFileCall
  panic : Option Panic
  deriving DecidableEq, Repr

/-- The files a run wrote: the calls of `os.WriteFile` that returned no error,
as pairs of name and data. -/
def Run.files (r : Run) : List (GoString × GoString) :=
  (r.writes.filter (fun c => c.err.isNone)).map (fun c => (c.name, c.data))

/-- Package variable `URL` (line 37). -/
def URL : GoString :=
  str "https://s3.eu-west-2.amazonaws.com/interview.thanskben.com/backend/employees_19-02-2024.zip"

/-- Constant `http.StatusOK`. -/
def StatusOK : Nat := 200

/-- One line of the CSV text (line 91). -/
def csvLine (employee : EmployeeClean) : GoString :=
  employee.FullName ++ str "," ++ employee.Department ++ str "," ++ employee.Email ++ str "\n"

/-- The CSV text of an entry (lines 89-92): `csvData` starts as the header and
each record appends its line. -/
def csvData (filteredEmployees : List EmployeeClean) : GoString :=
  filteredEmployees.foldl (fun csv employee => csv ++ csvLine employee)
    (str "full_name,department,email\n")

/-- Name of the output file of the entry at position `fileCount` (line 94). -/
def csvFileName (fileCount : Nat) : GoString :=
  str "employees_" ++ itoa fileCount ++ str ".csv"

/-- A run with one more log entry. -/
def Run.addLog (r : Run) (entry : GoString) : Run :=
  { r with log := r.log ++ [entry] }

/-- The loop of `main` over `zipFile.File` (lines 66-99), from position
`fileCount`, with the current value of `employees` and what the run did so
far. -/
def mainLoop (w : World) : List ZipFile → Nat → Slice → Run → Run
  | [], _, _, run => run
  | file :: rest, fileCount, employees, run =>
    match file.Open with
    | .error err =>
      mainLoop w rest (fileCount + 1) employees (run.addLog (str "Problem with zip: " ++ err))
    | .ok (.error err) =>
      mainLoop w rest (fileCount + 1) employees (run.addLog (str "Problem with zip: " ++ err))
    | .ok (.ok decodedZip) =>
      match jsonUnmarshal decodedZip employees with
      | (some _, employees1) =>
        mainLoop w rest (fileCount + 1) employees1
          (run.addLog (str "Ignored invalid employees JSON: " ++ file.Name))
      | (none, employees1) =>
        match filterEmployees w.timeParse employees1.elems with
        | (entries, .error p) =>
          { log := run.log ++ entries, writes := run.writes, panic := some p }
        | (entries, .ok filteredEmployees) =>
          let name := csvFileName fileCount
          let data := csvData filteredEmployees
          let err := w.writeFile name data
          let run1 : Run :=
            { log := run.log ++ entries
              writes := run.writes ++ [{ name := name, data := data, err := err }]
              panic := none }
          match err with
          | some e =>
            mainLoop w rest (fileCount + 1) employees1 (run1.addLog (str "Error writing to file: " ++ e))
          | none => mainLoop w rest (fileCount + 1) employees1 run1

/-- A run that did nothing yet. -/
def Run.start : Run := { log := [], writes := [], panic := none }

/-- Function `main` (lines 40-100). -/
def main (w : World) : Run :=
  match w.httpGet URL with
  | .error err => Run.start.addLog (str "Error calling API: " ++ err)
  | .ok resp =>
    if resp.StatusCode ≠ StatusOK then
      Run.start.addLog (str "Error calling API: " ++ resp.Status)
    else
      match resp.Body with
      | .error err => Run.start.addLog (str "Error reading response body: " ++ err)
      | .ok body =>
        match w.zipNewReader body with
        | .error err => Run.start.addLog (str "Error creating zip reader: " ++ err)
        | .ok zipFile => mainLoop w zipFile 0 Slice.nil Run.start

/-! ## Notions used to state the properties -/

deriving instance DecidableEq for Except

/-- The value of `strings.Split(first, " ")[0]`. -/
def firstSegment (first : GoString) : GoString :=
  (stringsSplit first space).headD []

/-- The condition under which `filterEmployees` calls `cleanUpEmployeeData`
(line 111): salaried and born in summer. -/
def qualifies (timeParse : TimeParse) (employee : Employee) : Bool :=
  salariedEmployee employee && (bornInSummer timeParse employee).1

/-- Calling `cleanUpEmployeeData` on each employee in turn, stopping at the
first panic. -/
def cleanAll : List Employee → Except Panic (List EmployeeClean)
  | [] => .ok []
  | employee :: rest =>
    match cleanUpEmployeeData employee with
    | .error p => .error p
    | .ok cleanEmployee =>
      match cleanAll rest with
      | .error p => .error p
      | .ok cleanEmployees => .ok (cleanEmployee :: cleanEmployees)

/-- The log entries for the employees whose date of birth does not parse, in
order. -/
def dobLog (timeParse : TimeParse) (employees : List Employee) : List GoString :=
  employees.filterMap (fun employee => (bornInSummer timeParse employee).2.map (dobLogEntry employee))

/-! ## Sample inputs -/

/-- A salaried employee born in August whose first name is empty and whose
last name has 16 bytes. -/
def noFirstName : Employee :=
  { DOB := str "2006-08-02T15:04:05Z"
    Name := { First := str "", Last := str "VeryLongLastName" }
    Roles := [str "salaried"]
    Email := str "test@test.com"
    Department := str "IT"
    Username := str "anon" }

/-- The first employee of `TestFilterEmployeeBadDOB`, with a username. -/
def badDOB : Employee :=
  { DOB := str "not date"
    Name := { First := str "John", Last := str "Doe" }
    Roles := [str "salaried", str "Manager"]
    Email := str "test@test.com"
    Department := str "HR"
    Username := str "jdoe" }

/-- An employee whose first name starts with a character of two bytes. -/
def emile : Employee :=
  { DOB := str "2006-08-02T15:04:05Z"
    Name := { First := str "Émile", Last := str "Durand" }
    Roles := [str "salaried"]
    Email := str "test@test.com"
    Department := str "IT"
    Username := str "edurand" }

/-- The four employees of `TestFilterEmployees`. -/
def testEmployees : List Employee :=
  [ { DOB := str "2006-01-02T15:04:05Z", Name := { First := str "John", Last := str "Doe" },
      Roles := [str "salaried", str "Manager"], Email := str "test@test.com",
      Department := str "HR", Username := str "" },
    { DOB := str "2006-08-02T15:04:05Z", Name := { First := str "Jane", Last := str "Doe" },
      Roles := [str "salaried", str "Manager"], Email := str "test@test.com",
      Department := str "HR", Username := str "" },
    { DOB := str "2006-08-02T15:04:05Z", Name := { First := str "Jane", Last := str "Doe" },
      Roles := [str "Manager"], Email := str "test@test.com",
      Department := str "HR", Username := str "" },
    { DOB := str "2006-08-02T15:04:05Z", Name := { First := str "Jane", Last := str "VeryLongLastName" },
      Roles := [str "salaried", str "Manager"], Email := str "test@test.com",
      Department := str "IT", Username := str "" } ]

/-- First entry of the sample archive, a JSON array of one object with all the
keys: `dob` 2006-08-02T15:04:05Z, `name` with `first` Jane and `last` Doe,
`roles` with the one role salaried, `email`, `department` HR, `username`. -/
def janeEntry : JSONText :=
  .array [ { dob := some (str "2006-08-02T15:04:05Z")
             name := some { first := some (str "Jane"), last := some (str "Doe") }
             roles := some [str "salaried"]
             email := some (str "jane@test.com")
             department := some (str "HR")
             username := some (str "jane") } ]

/-- Second entry of the sample archive, a JSON array of one object without a
`roles` key: `dob` 2006-08-02T15:04:05Z, `name` with `first` John and `last`
Doe, `email`, `department` IT, `username`. -/
def johnEntry : JSONText :=
  .array [ { dob := some (str "2006-08-02T15:04:05Z")
             name := some { first := some (str "John"), last := some (str "Doe") }
             roles := none
             email := some (str "john@test.com")
             department := some (str "IT")
             username := some (str "john") } ]

/-- A world in which the fetch succeeds with status 200 and the body is an
archive with the given entries, each of which opens; every write succeeds. -/
def archiveWorld (files : List ZipFile) : World :=
  { httpGet := fun _ => .ok { StatusCode := 200, Status := str "200 OK", Body := .ok (str "PK") }
    zipNewReader := fun _ => .ok files
    timeParse := timeParseRFC3339
    writeFile := fun _ _ => none }

/-- The sample archive: `janeEntry` at position 0, `johnEntry` at position 1. -/
def twoEntries : List ZipFile :=
  [ { Name := str "a.json", Open := .ok (.ok janeEntry) },
    { Name := str "b.json", Open := .ok (.ok johnEntry) } ]

/-- A world in which the server answers 404, as in `TestMainBadResponse`. -/
def notFoundWorld : World :=
  { httpGet := fun _ => .ok { StatusCode := 404, Status := str "404 Not Found", Body := .ok [] }
    zipNewReader := fun _ => .ok twoEntries
    timeParse := timeParseRFC3339
    writeFile := fun _ _ => none }

/-- A world in which the body is not a ZIP container, as in `TestMainBadZip`. -/
def badZipWorld : World :=
  { httpGet := fun _ => .ok { StatusCode := 200, Status := str "200 OK", Body := .ok [] }
    zipNewReader := fun _ => .error (str "zip: not a valid zip file")
    timeParse := timeParseRFC3339
    writeFile := fun _ _ => none }

/-! ## Helper lemmas -/

theorem stringsSplit_cons (s : GoString) (sep : Byte) :
    ∃ seg segs, stringsSplit s sep = seg :: segs := by
  induction s with
  | nil => exact ⟨[], [], rfl⟩
  | cons c rest ih =>
    obtain ⟨seg, segs, h⟩ := ih
    by_cases hc : c = sep
    · exact ⟨[], stringsSplit rest sep, by simp [stringsSplit, hc]⟩
    · exact ⟨c :: seg, segs, by simp [stringsSplit, hc, h]⟩

theorem firstSegment_eq_nil_iff (first : GoString) :
    firstSegment first = [] ↔ first = [] ∨ ∃ rest, first = space :: rest := by
  cases first with
  | nil => simp [firstSegment, stringsSplit]
  | cons c rest =>
    obtain ⟨seg, segs, h⟩ := stringsSplit_cons rest space
    by_cases hc : c = space
    · simp [firstSegment, stringsSplit, hc]
    · simp [firstSegment, stringsSplit, hc, h]

theorem cleanUpEmployeeData_eq (employee : Employee) :
    cleanUpEmployeeData employee =
      if (firstSegment employee.Name.First).length + employee.Name.Last.length > 9 then
        match firstSegment employee.Name.First with
        | [] => .error (.indexOutOfRange 0 0)
        | initial :: _ =>
          .ok { FullName := stringOfByte initial ++ str ". " ++ employee.Name.Last
                Department := employee.Department
                Email := employee.Email }
      else
        .ok { FullName := employee.Name.First ++ str " " ++ employee.Name.Last
              Department := employee.Department
              Email := employee.Email } := by
  obtain ⟨seg, segs, h⟩ := stringsSplit_cons employee.Name.First space
  unfold cleanUpEmployeeData
  simp only [firstSegment, h, index, List.headD_cons]
  cases seg with
  | nil => simp [bind, Except.bind, pure, Except.pure]
  | cons b bs => simp [bind, Except.bind, pure, Except.pure]

theorem cleanUpEmployeeData_error_iff (employee : Employee) :
    (∃ p, cleanUpEmployeeData employee = .error p) ↔
      (firstSegment employee.Name.First = [] ∧ 9 < employee.Name.Last.length) := by
  rw [cleanUpEmployeeData_eq]
  cases hseg : firstSegment employee.Name.First with
  | nil =>
    by_cases h9 : 9 < employee.Name.Last.length
    · simp [h9]
    · simp [h9]
  | cons b bs =>
    have hne : ∀ x : Panic,
        ¬ (if (b :: bs).length + employee.Name.Last.length > 9 then
            (Except.ok { FullName := stringOfByte b ++ str ". " ++ employee.Name.Last
                         Department := employee.Department
                         Email := employee.Email } : Except Panic EmployeeClean)
          else
            .ok { FullName := employee.Name.First ++ str " " ++ employee.Name.Last
                  Department := employee.Department
                  Email := employee.Email }) = .error x := by
      intro x
      split_ifs <;> simp
    simpa using hne

theorem cleanUpEmployeeData_fields (employee : Employee) (c : EmployeeClean)
    (h : cleanUpEmployeeData employee = .ok c) :
    c.Department = employee.Department ∧ c.Email = employee.Email := by
  rw [cleanUpEmployeeData_eq] at h
  split_ifs at h
  · split at h
    · simp at h
    · simp only [Except.ok.injEq] at h
      subst h
      exact ⟨rfl, rfl⟩
  · simp only [Except.ok.injEq] at h
    subst h
    exact ⟨rfl, rfl⟩

theorem filterEmployeesLoop_result (timeParse : TimeParse) (employees : List Employee) :
    ∀ (log : List GoString) (acc : List EmployeeClean),
      (filterEmployeesLoop timeParse employees log acc).2 =
        match cleanAll (employees.filter (qualifies timeParse)) with
        | .error p => .error p
        | .ok cleanEmployees => .ok (acc ++ cleanEmployees) := by
  induction employees with
  | nil => intro log acc; simp [filterEmployeesLoop, cleanAll]
  | cons e rest ih =>
    intro log acc
    unfold filterEmployeesLoop
    by_cases hq : qualifies timeParse e = true
    · have hq2 : (salariedEmployee e && (bornInSummer timeParse e).1) = true := hq
      simp only [hq2, if_true, List.filter_cons, hq, cleanAll]
      cases hc : cleanUpEmployeeData e with
      | error p => simp
      | ok c =>
        simp only [ih]
        cases cleanAll (rest.filter (qualifies timeParse)) with
        | error p => simp
        | ok cs => simp
    · have hq2 : (salariedEmployee e && (bornInSummer timeParse e).1) = false := by
        simpa [qualifies] using hq
      simp only [hq2, List.filter_cons, hq]
      simp only [Bool.false_eq_true, if_false]
      exact ih _ _

theorem filterEmployeesLoop_log (timeParse : TimeParse) (employees : List Employee) :
    ∀ (log : List GoString) (acc : List EmployeeClean),
      (∀ r ∈ employees, qualifies timeParse r = true → ∃ c, cleanUpEmployeeData r = .ok c) →
      (filterEmployeesLoop timeParse employees log acc).1 = log ++ dobLog timeParse employees := by
  induction employees with
  | nil => intro log acc _; simp [filterEmployeesLoop, dobLog]
  | cons e rest ih =>
    intro log acc hall
    have hrest : ∀ r ∈ rest, qualifies timeParse r = true → ∃ c, cleanUpEmployeeData r = .ok c :=
      fun r hr => hall r (List.mem_cons_of_mem _ hr)
    unfold filterEmployeesLoop
    by_cases hq : qualifies timeParse e = true
    · have hq2 : (salariedEmployee e && (bornInSummer timeParse e).1) = true := hq
      obtain ⟨c, hc⟩ := hall e (List.mem_cons_self _ _) hq
      simp only [hq2, if_true, hc]
      rw [ih _ _ hrest]
      cases hb : (bornInSummer timeParse e).2 with
      | none => simp [dobLog, hb]
      | some err => simp [dobLog, hb]
    · have hq2 : (salariedEmployee e && (bornInSummer timeParse e).1) = false := by
        simpa [qualifies] using hq
      simp only [hq2]
      simp only [Bool.false_eq_true, if_false]
      rw [ih _ _ hrest]
      cases hb : (bornInSummer timeParse e).2 with
      | none => simp [dobLog, hb]
      | some err => simp [dobLog, hb]

theorem cleanAll_error_iff (employees : List Employee) :
    (∃ p, cleanAll employees = .error p) ↔
      ∃ r ∈ employees, firstSegment r.Name.First = [] ∧ 9 < r.Name.Last.length := by
  induction employees with
  | nil => simp [cleanAll]
  | cons e rest ih =>
    have he := cleanUpEmployeeData_error_iff e
    unfold cleanAll
    cases hc : cleanUpEmployeeData e with
    | error p =>
      have h1 := he.mp ⟨p, hc⟩
      simp only [List.mem_cons, exists_eq_or_imp]
      constructor
      · intro _; exact Or.inl h1
      · intro _; exact ⟨p, rfl⟩
    | ok c =>
      have h1 : ¬ (firstSegment e.Name.First = [] ∧ 9 < e.Name.Last.length) := by
        intro h
        obtain ⟨p, hp⟩ := he.mpr h
        rw [hc] at hp
        cases hp
      simp only [List.mem_cons, exists_eq_or_imp]
      cases hr : cleanAll rest with
      | error p =>
        have h2 := ih.mp ⟨p, hr⟩
        constructor
        · intro _; exact Or.inr h2
        · intro _; exact ⟨p, rfl⟩
      | ok cs =>
        have h2 : ¬ ∃ r ∈ rest, firstSegment r.Name.First = [] ∧ 9 < r.Name.Last.length := by
          intro h
          obtain ⟨p, hp⟩ := ih.mpr h
          rw [hr] at hp
          cases hp
        constructor
        · rintro ⟨p, hp⟩; cases hp
        · rintro (h | h)
          · exact absurd h h1
          · exact absurd h h2

theorem cleanAll_ok (employees : List Employee) :
    ∀ cs, cleanAll employees = .ok cs →
      List.Forall₂ (fun r c => cleanUpEmployeeData r = .ok c) employees cs := by
  induction employees with
  | nil => intro cs h; simp [cleanAll] at h; subst h; exact List.Forall₂.nil
  | cons e rest ih =>
    intro cs h
    unfold cleanAll at h
    cases hc : cleanUpEmployeeData e with
    | error p => simp [hc] at h
    | ok c =>
      cases hr : cleanAll rest with
      | error p => simp [hc, hr] at h
      | ok cs2 =>
        simp [hc, hr] at h
        subst h
        exact List.Forall₂.cons hc (ih cs2 hr)

/-- The expectation of `TestFilterEmployees`. -/
theorem filterEmployees_testEmployees : filterEmployees timeParseRFC3339 testEmployees =
    ([], .ok [ { FullName := str "Jane Doe", Department := str "HR", Email := str "test@test.com" },
               { FullName := str "J. VeryLongLastName", Department := str "IT",
                 Email := str "test@test.com" } ]) := by
  decide

theorem mainLoop_writes_extend (w : World) (files : List ZipFile) :
    ∀ (fileCount : Nat) (employees : Slice) (run : Run),
      ∃ more, (mainLoop w files fileCount employees run).writes = run.writes ++ more := by
  induction files with
  | nil => intro fileCount employees run; exact ⟨[], by simp [mainLoop]⟩
  | cons file rest ih =>
    intro fileCount employees run
    unfold mainLoop
    cases hopen : file.Open with
    | error err =>
      obtain ⟨more, h⟩ := ih (fileCount + 1) employees (run.addLog (str "Problem with zip: " ++ err))
      exact ⟨more, by simpa [Run.addLog] using h⟩
    | ok contents =>
      cases contents with
      | error err =>
        obtain ⟨more, h⟩ := ih (fileCount + 1) employees (run.addLog (str "Problem with zip: " ++ err))
        exact ⟨more, by simpa [Run.addLog] using h⟩
      | ok decodedZip =>
        simp only
        rcases hj : jsonUnmarshal decodedZip employees with ⟨_ | e, employees1⟩
        · simp only
          rcases hf : filterEmployees w.timeParse employees1.elems with ⟨entries, p | filtered⟩
          · exact ⟨[], by simp⟩
          · simp only
            cases hw : w.writeFile (csvFileName fileCount) (csvData filtered) with
            | none =>
              obtain ⟨more, h⟩ := ih (fileCount + 1) employees1
                { log := run.log ++ entries
                  writes := run.writes ++ [{ name := csvFileName fileCount, data := csvData filtered, err := none }]
                  panic := none }
              exact ⟨_ :: more, by simpa using h⟩
            | some e =>
              obtain ⟨more, h⟩ := ih (fileCount + 1) employees1
                (Run.addLog { log := run.log ++ entries
                              writes := run.writes ++ [{ name := csvFileName fileCount, data := csvData filtered, err := some e }]
                              panic := none } (str "Error writing to file: " ++ e))
              exact ⟨_ :: more, by simpa [Run.addLog] using h⟩
        · simp only
          obtain ⟨more, h⟩ := ih (fileCount + 1) employees1
            (run.addLog (str "Ignored invalid employees JSON: " ++ file.Name))
          exact ⟨more, by simpa [Run.addLog] using h⟩

theorem csvData_foldl (l : List EmployeeClean) :
    ∀ init : GoString,
      l.foldl (fun csv employee => csv ++ csvLine employee) init = init ++ (l.map csvLine).flatten := by
  induction l with
  | nil => intro init; simp
  | cons c rest ih => intro init; simp [ih, List.append_assoc]

theorem summerLoop_iff (m : Nat) :
    summerLoop m summerMonths = true ↔ (m = 6 ∨ m = 7 ∨ m = 8 ∨ m = 9) := by
  simp [summerLoop, summerMonths, June, July, August, September]

theorem salariedLoop_iff (roles : List GoString) :
    salariedLoop roles = true ↔ str "salaried" ∈ roles := by
  induction roles with
  | nil => simp [salariedLoop]
  | cons role rest ih =>
    unfold salariedLoop
    by_cases h : role = str "salaried"
    · simp [h]
    · have h2 : ¬ str "salaried" = role := fun e => h e.symm
      simp [h, h2, ih]

/-! ## The claims -/

/-- C5. `salariedEmployee` is true exactly when some role of the employee is,
byte for byte, the string `salaried`; it is false for an empty role list and
for role lists holding only `Salaried`, `SALARIED`, `salaried ` or ` salaried`. -/
theorem salariedEmployee_iff_exact_role :
    (∀ employee : Employee,
      salariedEmployee employee = true ↔ ∃ role ∈ employee.Roles, role = str "salaried") ∧
    (∀ employee : Employee, employee.Roles = [] → salariedEmployee employee = false) ∧
    (∀ employee : Employee, employee.Roles = [str "Salaried"] → salariedEmployee employee = false) ∧
    (∀ employee : Employee, employee.Roles = [str "SALARIED"] → salariedEmployee employee = false) ∧
    (∀ employee : Employee, employee.Roles = [str "salaried "] → salariedEmployee employee = false) ∧
    (∀ employee : Employee, employee.Roles = [str " salaried"] → salariedEmployee employee = false) := by
  refine ⟨?_, ?_, ?_, ?_, ?_, ?_⟩
  · intro employee
    simp [salariedEmployee, salariedLoop_iff]
  all_goals
    intro employee h
    simp only [salariedEmployee, h]
    decide

/-- C2. For every parser standing for `time.Parse(time.RFC3339, _)` and every
employee: `bornInSummer` is true exactly when the date of birth parses and the
month of the parsed time is 6, 7, 8 or 9; when it parses with such a month the
result is `(true, nil)`; when it parses with another month the result is
`(false, nil)`; when it does not parse the result is `false` together with the
error of the parser. -/
theorem bornInSummer_spec (timeParse : TimeParse) (employee : Employee) :
    ((bornInSummer timeParse employee).1 = true ↔
      ∃ t, timeParse employee.DOB = .ok t ∧ (t.Month = 6 ∨ t.Month = 7 ∨ t.Month = 8 ∨ t.Month = 9)) ∧
    (∀ t, timeParse employee.DOB = .ok t → (t.Month = 6 ∨ t.Month = 7 ∨ t.Month = 8 ∨ t.Month = 9) →
      bornInSummer timeParse employee = (true, none)) ∧
    (∀ t, timeParse employee.DOB = .ok t → ¬ (t.Month = 6 ∨ t.Month = 7 ∨ t.Month = 8 ∨ t.Month = 9) →
      bornInSummer timeParse employee = (false, none)) ∧
    (∀ err, timeParse employee.DOB = .error err →
      bornInSummer timeParse employee = (false, some err)) := by
  refine ⟨?_, ?_, ?_, ?_⟩
  · unfold bornInSummer
    cases h : timeParse employee.DOB with
    | error err => simp
    | ok t => simp [summerLoop_iff]
  · intro t h hm
    simp [bornInSummer, h, (summerLoop_iff t.Month).mpr hm]
  · intro t h hm
    have : summerLoop t.Month summerMonths = false := by
      cases hs : summerLoop t.Month summerMonths with
      | false => rfl
      | true => exact absurd ((summerLoop_iff t.Month).mp hs) hm
    simp [bornInSummer, h, this]
  · intro err h
    simp [bornInSummer, h]

/-- C4. For every employee: when the length of the first space-separated
segment of the first name plus the length of the last name is at most 9 (9
included), `cleanUpEmployeeData` returns the whole first-name field, one space
and the last name, with department and email copied; when the sum is above 9 it
takes the abbreviating branch instead, whose result is the converted first byte
of the segment, `. ` and the last name, or a panic when the segment is empty. -/
theorem cleanUpEmployeeData_full_form_iff (employee : Employee) :
    ((firstSegment employee.Name.First).length + employee.Name.Last.length ≤ 9 →
      cleanUpEmployeeData employee =
        .ok { FullName := employee.Name.First ++ str " " ++ employee.Name.Last
              Department := employee.Department
              Email := employee.Email }) ∧
    (9 < (firstSegment employee.Name.First).length + employee.Name.Last.length →
      cleanUpEmployeeData employee =
        match firstSegment employee.Name.First with
        | [] => .error (.indexOutOfRange 0 0)
        | initial :: _ =>
          .ok { FullName := stringOfByte initial ++ str ". " ++ employee.Name.Last
                Department := employee.Department
                Email := employee.Email }) := by
  constructor
  · intro h
    rw [cleanUpEmployeeData_eq]
    have : ¬ (firstSegment employee.Name.First).length + employee.Name.Last.length > 9 := by omega
    simp only [this, if_false]
  · intro h
    rw [cleanUpEmployeeData_eq]
    have : (firstSegment employee.Name.First).length + employee.Name.Last.length > 9 := h
    simp only [this, if_true]

/-- C4, at the boundary: a sum of exactly 9 (`Jane` and `Smith`) gives the full
form, a sum of 10 (`Jane` and `Smiths`) the abbreviated one. -/
theorem cleanUpEmployeeData_full_form_iff_witness :
    cleanUpEmployeeData
        { DOB := [], Name := { First := str "Jane", Last := str "Smith" }, Roles := [],
          Email := str "e", Department := str "d", Username := [] } =
      .ok { FullName := str "Jane Smith", Department := str "d", Email := str "e" } ∧
    cleanUpEmployeeData
        { DOB := [], Name := { First := str "Jane", Last := str "Smiths" }, Roles := [],
          Email := str "e", Department := str "d", Username := [] } =
      .ok { FullName := str "J. Smiths", Department := str "d", Email := str "e" } :=
  ⟨(cleanUpEmployeeData_full_form_iff _).1 (by decide),
   (cleanUpEmployeeData_full_form_iff _).2 (by decide)⟩

/-- When the first byte of the first segment is ASCII and the sum of lengths is
above 9, the full name is that byte, `. ` and the last name. -/
theorem cleanUpEmployeeData_abbreviated_ascii (employee : Employee) (initial : Byte)
    (restOfSegment : GoString)
    (hseg : firstSegment employee.Name.First = initial :: restOfSegment)
    (hascii : initial.toNat < 128)
    (h9 : 9 < (firstSegment employee.Name.First).length + employee.Name.Last.length) :
    cleanUpEmployeeData employee =
      .ok { FullName := [initial] ++ str ". " ++ employee.Name.Last
            Department := employee.Department
            Email := employee.Email } := by
  have h9b : (firstSegment employee.Name.First).length + employee.Name.Last.length > 9 := h9
  rw [cleanUpEmployeeData_eq, if_pos h9b, hseg]
  have hround : UInt8.ofNat initial.toNat = initial := by
    cases initial with
    | mk v => simp [UInt8.ofNat, UInt8.toNat]
  have : stringOfByte initial = [initial] := by
    simp only [stringOfByte, utf8Encode, if_pos hascii, hround]
  simp [this]

/-- C3, the code at two employees whose lengths add up to more than 9. For
`Émile Durand` the full name starts with the two bytes of `Ã` (the first byte
of `É`, C3, converted as a code point), not with `É`. For an empty first name
and the last name `VeryLongLastName` there is no full name: the function
panics. -/
theorem cleanUpEmployeeData_initial_defects :
    9 < (firstSegment emile.Name.First).length + emile.Name.Last.length ∧
    cleanUpEmployeeData emile =
      .ok { FullName := str "Ã. Durand", Department := str "IT", Email := str "test@test.com" } ∧
    str "Ã. Durand" ≠ str "É. Durand" ∧
    9 < (firstSegment noFirstName.Name.First).length + noFirstName.Name.Last.length ∧
    cleanUpEmployeeData noFirstName = .error (.indexOutOfRange 0 0) := by
  decide

/-- C1, the code at a list of one salaried employee born in August, with an
empty first name and the last name `VeryLongLastName`: `filterEmployees` does
not return a slice, it panics. -/
theorem filterEmployees_panics_on_empty_first_name :
    salariedEmployee noFirstName = true ∧
    bornInSummer timeParseRFC3339 noFirstName = (true, none) ∧
    filterEmployees timeParseRFC3339 [noFirstName] = ([], .error (.indexOutOfRange 0 0)) := by
  decide

/-- Where no salaried, summer-born employee has an empty first segment with a
last name of more than 9 bytes, `filterEmployees` returns one record for each
salaried, summer-born employee, in input order: the result of
`cleanUpEmployeeData`, with department and email of the employee. -/
theorem filterEmployees_returns (timeParse : TimeParse) (employees : List Employee)
    (h : ∀ r ∈ employees, qualifies timeParse r = true →
      ¬ (firstSegment r.Name.First = [] ∧ 9 < r.Name.Last.length)) :
    ∃ filtered, (filterEmployees timeParse employees).2 = .ok filtered ∧
      List.Forall₂
        (fun r c => cleanUpEmployeeData r = .ok c ∧ c.Department = r.Department ∧ c.Email = r.Email)
        (employees.filter (qualifies timeParse)) filtered := by
  unfold filterEmployees
  rw [filterEmployeesLoop_result]
  cases hc : cleanAll (employees.filter (qualifies timeParse)) with
  | error p =>
    obtain ⟨r, hr, hshape⟩ := (cleanAll_error_iff _).mp ⟨p, hc⟩
    rw [List.mem_filter] at hr
    exact absurd hshape (h r hr.1 hr.2)
  | ok cs =>
    refine ⟨cs, by simp, ?_⟩
    exact (cleanAll_ok _ cs hc).imp (fun r c hrc => ⟨hrc, cleanUpEmployeeData_fields r c hrc⟩)

/-- C8, the code at a list of two employees: first a salaried employee born in
August with an empty first name and the last name `VeryLongLastName`, then an
employee whose date of birth `not date` does not parse. The run of
`filterEmployees` ends in a panic at the first employee and its log is empty:
there is no entry for the second employee. -/
theorem filterEmployees_loses_log_entry :
    timeParseRFC3339 noFirstName.DOB = .ok { Month := 8 } ∧
    (bornInSummer timeParseRFC3339 badDOB).2 = some (parseError (str "not date")) ∧
    filterEmployees timeParseRFC3339 [noFirstName, badDOB] = ([], .error (.indexOutOfRange 0 0)) := by
  decide

/-- Where no salaried, summer-born employee has an empty first segment with a
last name of more than 9 bytes, the log of `filterEmployees` has exactly one
entry for each employee whose date of birth does not parse, in input order,
made of the username and the error. -/
theorem filterEmployees_log (timeParse : TimeParse) (employees : List Employee)
    (h : ∀ r ∈ employees, qualifies timeParse r = true →
      ¬ (firstSegment r.Name.First = [] ∧ 9 < r.Name.Last.length)) :
    (filterEmployees timeParse employees).1 =
      employees.filterMap (fun r =>
        match timeParse r.DOB with
        | .error err =>
          some (str "Error checking if employee was born in summer: " ++ r.Username ++ str ", " ++ err)
        | .ok _ => none) := by
  unfold filterEmployees
  rw [filterEmployeesLoop_log]
  · simp only [List.nil_append, dobLog]
    congr 1
    funext r
    unfold bornInSummer
    cases timeParse r.DOB with
    | error err => simp [dobLogEntry]
    | ok t => simp
  · intro r hr hq
    have hne := h r hr hq
    cases hc : cleanUpEmployeeData r with
    | error p => exact absurd ((cleanUpEmployeeData_error_iff r).mp ⟨p, hc⟩) hne
    | ok c => exact ⟨c, rfl⟩

/-- C10. `cleanUpEmployeeData` panics exactly when the first space-separated
segment of the first name is empty and the last name has more than 9 bytes, and
the panic is then an index out of range (index 0, length 0); for every other
employee it returns a result. The segment is empty exactly when the first name
is empty or begins with a space. Indexing the split first name at 0 never
panics. `filterEmployees` panics exactly when some salaried, summer-born
employee of the list has that shape. -/
theorem cleanUpEmployeeData_panics_iff :
    (∀ employee : Employee,
      (∃ p, cleanUpEmployeeData employee = .error p) ↔
        (firstSegment employee.Name.First = [] ∧ 9 < employee.Name.Last.length)) ∧
    (∀ (employee : Employee) (p : Panic),
      cleanUpEmployeeData employee = .error p → p = .indexOutOfRange 0 0) ∧
    (∀ employee : Employee,
      (∃ c, cleanUpEmployeeData employee = .ok c) ↔
        ¬ (firstSegment employee.Name.First = [] ∧ 9 < employee.Name.Last.length)) ∧
    (∀ first : GoString,
      firstSegment first = [] ↔ first = [] ∨ ∃ rest, first = space :: rest) ∧
    (∀ first : GoString,
      index (stringsSplit first space) 0 = .ok (firstSegment first)) ∧
    (∀ (timeParse : TimeParse) (employees : List Employee),
      (∃ p, (filterEmployees timeParse employees).2 = .error p) ↔
        ∃ r ∈ employees, salariedEmployee r = true ∧ (bornInSummer timeParse r).1 = true ∧
          firstSegment r.Name.First = [] ∧ 9 < r.Name.Last.length) := by
  refine ⟨cleanUpEmployeeData_error_iff, ?_, ?_, firstSegment_eq_nil_iff, ?_, ?_⟩
  · intro employee p h
    rw [cleanUpEmployeeData_eq] at h
    split_ifs at h
    · split at h
      · simp only [Except.error.injEq] at h
        exact h.symm
      · simp at h
  · intro employee
    rw [← cleanUpEmployeeData_error_iff]
    cases cleanUpEmployeeData employee with
    | error p => simp
    | ok c => simp
  · intro first
    obtain ⟨seg, segs, h⟩ := stringsSplit_cons first space
    simp [index, firstSegment, h]
  · intro timeParse employees
    unfold filterEmployees
    rw [filterEmployeesLoop_result]
    have hiff := cleanAll_error_iff (employees.filter (qualifies timeParse))
    have hleft : (∃ p, (match cleanAll (employees.filter (qualifies timeParse)) with
          | .error p => (.error p : Except Panic (List EmployeeClean))
          | .ok cleanEmployees => .ok ([] ++ cleanEmployees)) = .error p) ↔
        ∃ p, cleanAll (employees.filter (qualifies timeParse)) = .error p := by
      cases cleanAll (employees.filter (qualifies timeParse)) with
      | error p => simp
      | ok cs => simp
    rw [hleft, hiff]
    constructor
    · rintro ⟨r, hr, hshape⟩
      rw [List.mem_filter] at hr
      have hq : (salariedEmployee r && (bornInSummer timeParse r).1) = true := hr.2
      rw [Bool.and_eq_true] at hq
      exact ⟨r, hr.1, hq.1, hq.2, hshape⟩
    · rintro ⟨r, hr, hs, hb, hshape⟩
      refine ⟨r, ?_, hshape⟩
      rw [List.mem_filter]
      exact ⟨hr, by simp [qualifies, hs, hb]⟩

theorem mainLoop_writes_entry (w : World) (file : ZipFile) (rest : List ZipFile)
    (fileCount : Nat) (employees employees1 : Slice) (run : Run) (decodedZip : JSONText)
    (entries : List GoString) (filteredEmployees : List EmployeeClean)
    (hopen : file.Open = .ok (.ok decodedZip))
    (hjson : jsonUnmarshal decodedZip employees = (none, employees1))
    (hfilter : filterEmployees w.timeParse employees1.elems = (entries, .ok filteredEmployees)) :
    ∃ more, (mainLoop w (file :: rest) fileCount employees run).writes =
      run.writes ++
        { name := csvFileName fileCount
          data := csvData filteredEmployees
          err := w.writeFile (csvFileName fileCount) (csvData filteredEmployees) } :: more := by
  unfold mainLoop
  simp only [hopen, hjson, hfilter]
  cases hw : w.writeFile (csvFileName fileCount) (csvData filteredEmployees) with
  | none =>
    obtain ⟨more, h⟩ := mainLoop_writes_extend w rest (fileCount + 1) employees1
      { log := run.log ++ entries
        writes := run.writes ++
          [{ name := csvFileName fileCount, data := csvData filteredEmployees, err := none }]
        panic := none }
    exact ⟨more, by simpa using h⟩
  | some e =>
    obtain ⟨more, h⟩ := mainLoop_writes_extend w rest (fileCount + 1) employees1
      (Run.addLog
        { log := run.log ++ entries
          writes := run.writes ++
            [{ name := csvFileName fileCount, data := csvData filteredEmployees, err := some e }]
          panic := none }
        (str "Error writing to file: " ++ e))
    exact ⟨more, by simpa [Run.addLog] using h⟩

/-- C6. The CSV text of a list of clean employees is the header line followed,
in list order, by one line per record: full name, department and email joined
by commas and ended by a newline, the values inserted as they are. For the
empty list it is the header line alone. In the loop of `main`, an entry that
opens and decodes, and whose employees are filtered without a panic, leads to
one call of `os.WriteFile` for its position with exactly that text, whether the
filtered list is empty or not; when the call returns no error, the file with
that text is among the files of the run. -/
theorem csvData_spec :
    (∀ filteredEmployees : List EmployeeClean,
      csvData filteredEmployees =
        str "full_name,department,email\n" ++
          (filteredEmployees.map (fun employee =>
            employee.FullName ++ str "," ++ employee.Department ++ str "," ++ employee.Email
              ++ str "\n")).flatten) ∧
    csvData [] = str "full_name,department,email\n" ∧
    (∀ (w : World) (file : ZipFile) (rest : List ZipFile) (fileCount : Nat)
        (employees employees1 : Slice) (run : Run) (decodedZip : JSONText)
        (entries : List GoString) (filteredEmployees : List EmployeeClean),
      file.Open = .ok (.ok decodedZip) →
      jsonUnmarshal decodedZip employees = (none, employees1) →
      filterEmployees w.timeParse employees1.elems = (entries, .ok filteredEmployees) →
      (∃ more, (mainLoop w (file :: rest) fileCount employees run).writes =
        run.writes ++
          { name := str "employees_" ++ itoa fileCount ++ str ".csv"
            data := csvData filteredEmployees
            err := w.writeFile (str "employees_" ++ itoa fileCount ++ str ".csv")
              (csvData filteredEmployees) } :: more) ∧
      (w.writeFile (str "employees_" ++ itoa fileCount ++ str ".csv") (csvData filteredEmployees)
          = none →
        (str "employees_" ++ itoa fileCount ++ str ".csv", csvData filteredEmployees) ∈
          (mainLoop w (file :: rest) fileCount employees run).files)) := by
  refine ⟨?_, rfl, ?_⟩
  · intro filteredEmployees
    unfold csvData
    rw [csvData_foldl]
    rfl
  · intro w file rest fileCount employees employees1 run decodedZip entries filteredEmployees
      hopen hjson hfilter
    obtain ⟨more, h⟩ := mainLoop_writes_entry w file rest fileCount employees employees1 run
      decodedZip entries filteredEmployees hopen hjson hfilter
    refine ⟨⟨more, h⟩, ?_⟩
    intro hw
    have hw2 : w.writeFile (csvFileName fileCount) (csvData filteredEmployees) = none := hw
    unfold Run.files
    rw [h, List.mem_map]
    refine ⟨{ name := csvFileName fileCount, data := csvData filteredEmployees, err := none },
      ?_, rfl⟩
    rw [List.mem_filter]
    constructor
    · rw [hw2]
      simp
    · rfl

/-- C6, on an archive of one entry whose only employee has no role: the text is
the header line alone and the run writes it to `employees_0.csv`. -/
theorem csvData_spec_witness :
    csvData [] = str "full_name,department,email\n" ∧
    (main (archiveWorld [{ Name := str "b.json", Open := .ok (.ok johnEntry) }])).files =
      [(str "employees_0.csv", str "full_name,department,email\n")] :=
  ⟨csvData_spec.2.1, by decide⟩

/-- An entry that fails to open, fails to be read, or on which `json.Unmarshal`
reports an error, leads to a log entry and to no call of `os.WriteFile`; the
loop goes on with the next entry at the next position, `employees` being as
`json.Unmarshal` left it. -/
theorem mainLoop_skips_entry (w : World) (file : ZipFile) (rest : List ZipFile)
    (fileCount : Nat) (employees : Slice) (run : Run) :
    (∀ err, file.Open = .error err →
      mainLoop w (file :: rest) fileCount employees run =
        mainLoop w rest (fileCount + 1) employees (run.addLog (str "Problem with zip: " ++ err))) ∧
    (∀ err, file.Open = .ok (.error err) →
      mainLoop w (file :: rest) fileCount employees run =
        mainLoop w rest (fileCount + 1) employees (run.addLog (str "Problem with zip: " ++ err))) ∧
    (∀ decodedZip err employees1, file.Open = .ok (.ok decodedZip) →
      jsonUnmarshal decodedZip employees = (some err, employees1) →
      mainLoop w (file :: rest) fileCount employees run =
        mainLoop w rest (fileCount + 1) employees1
          (run.addLog (str "Ignored invalid employees JSON: " ++ file.Name))) := by
  refine ⟨?_, ?_, ?_⟩
  · intro err h
    rw [mainLoop]
    simp only [h]
  · intro err h
    rw [mainLoop]
    simp only [h]
  · intro decodedZip err employees1 h hj
    rw [mainLoop]
    simp only [h, hj]

/-- C7, the code on an archive of two entries that both open and decode. Entry
0 holds Jane Doe, salaried, born in August. Entry 1 holds John Doe, born in
August, whose object has no `roles` key: decoded on its own, John has no role
and nothing of entry 1 is kept. In the run, `employees_1.csv` holds a record
for John: the roles Jane left in `employees` are still there when entry 1 is
filtered. -/
theorem main_carries_roles_over :
    filterEmployees timeParseRFC3339 (jsonUnmarshal johnEntry Slice.nil).2.elems = ([], .ok []) ∧
    (main (archiveWorld twoEntries)).files =
      [ (str "employees_0.csv", str "full_name,department,email\nJane Doe,HR,jane@test.com\n"),
        (str "employees_1.csv", str "full_name,department,email\nJohn Doe,IT,john@test.com\n") ] ∧
    (main (archiveWorld twoEntries)).panic = none := by
  decide

theorem apiError_starts (e : GoString) :
    str "Error calling API" <+: str "Error calling API: " ++ e := by
  have hp : str "Error calling API: " = str "Error calling API" ++ str ": " := by decide
  rw [hp, List.append_assoc]
  exact List.prefix_append _ _

/-- C9. When `http.Get` fails or the response has a status other than 200, the
run never calls `os.WriteFile` (no file is written), does not panic, logs one
message, which starts with `Error calling API`, and is the same whatever
reading the archive would give: no entry is read. When the body is read and
`zip.NewReader` rejects it, the run never calls `os.WriteFile` either and logs
the error of the reader only. -/
theorem main_aborts_on_fetch_failure (w : World) :
    (((∃ err, w.httpGet URL = .error err) ∨
        (∃ resp, w.httpGet URL = .ok resp ∧ resp.StatusCode ≠ 200)) →
      (main w).writes = [] ∧ (main w).files = [] ∧ (main w).panic = none ∧
      (∃ msg, (main w).log = [msg] ∧ str "Error calling API" <+: msg) ∧
      (∀ zipNewReader, main { w with zipNewReader := zipNewReader } = main w)) ∧
    (∀ resp body err, w.httpGet URL = .ok resp → resp.StatusCode = 200 →
      resp.Body = .ok body → w.zipNewReader body = .error err →
      (main w).writes = [] ∧ (main w).files = [] ∧ (main w).panic = none ∧
      (main w).log = [str "Error creating zip reader: " ++ err]) := by
  constructor
  · rintro (⟨err, h⟩ | ⟨resp, h, hs⟩)
    · have hm : main w = { log := [str "Error calling API: " ++ err], writes := [], panic := none } := by
        simp [main, h, Run.addLog, Run.start]
      refine ⟨by rw [hm], by rw [hm]; rfl, by rw [hm], ⟨_, by rw [hm], apiError_starts err⟩, ?_⟩
      intro z
      rw [hm]
      simp [main, h, Run.addLog, Run.start]
    · have hs2 : resp.StatusCode ≠ StatusOK := hs
      have hm : main w = { log := [str "Error calling API: " ++ resp.Status], writes := [], panic := none } := by
        simp [main, h, hs2, Run.addLog, Run.start]
      refine ⟨by rw [hm], by rw [hm]; rfl, by rw [hm], ⟨_, by rw [hm], apiError_starts resp.Status⟩, ?_⟩
      intro z
      rw [hm]
      simp [main, h, hs2, Run.addLog, Run.start]
  · intro resp body err h hs hb hz
    have hs2 : resp.StatusCode = StatusOK := hs
    have hm : main w = { log := [str "Error creating zip reader: " ++ err], writes := [], panic := none } := by
      simp [main, h, hs2, hb, hz, Run.addLog, Run.start]
    exact ⟨by rw [hm], by rw [hm]; rfl, by rw [hm], by rw [hm]⟩

/-- C9, on the world of `TestMainBadResponse` (status 404) and on the world of
`TestMainBadZip` (a body that is no ZIP container). -/
theorem main_aborts_on_fetch_failure_witness :
    ((main notFoundWorld).writes = [] ∧ (main notFoundWorld).files = [] ∧
      (main notFoundWorld).panic = none ∧
      (∃ msg, (main notFoundWorld).log = [msg] ∧ str "Error calling API" <+: msg) ∧
      (∀ zipNewReader, main { notFoundWorld with zipNewReader := zipNewReader } = main notFoundWorld)) ∧
    ((main badZipWorld).writes = [] ∧ (main badZipWorld).files = [] ∧
      (main badZipWorld).panic = none ∧
      (main badZipWorld).log = [str "Error creating zip reader: " ++ str "zip: not a valid zip file"]) :=
  ⟨(main_aborts_on_fetch_failure notFoundWorld).1
      (Or.inr ⟨{ StatusCode := 404, Status := str "404 Not Found", Body := .ok [] }, rfl, by decide⟩),
   (main_aborts_on_fetch_failure badZipWorld).2
      { StatusCode := 200, Status := str "200 OK", Body := .ok [] } [] (str "zip: not a valid zip file")
      rfl rfl rfl rfl⟩

end EmployeeZipToCsv
